import Mathlib

/-!
# Verification of the rule-builder-pro evaluation core

A shallow embedding of `src/lib/evaluator.ts` (the rule evaluation and
recommendation engine) together with proofs of the spec's claims about it.

Modelling conventions:
* JavaScript dynamic values are embedded as the inductive `JValue`
  (`undefined` is represented as `Option.none` where it can occur).
* JavaScript numbers are embedded as `Rat` (idealised exact arithmetic;
  the repository only manipulates small scores, deltas and weights).
* JavaScript objects are embedded as association lists in insertion order;
  `o[k]` is first-match lookup and `o[k] = v` is update-in-place-or-append,
  which agrees with JS object semantics for the string keys the engine uses.
* `JSON.parse(JSON.stringify(x))` deep copies are the identity on this model.
* The impure `new Date().toISOString()` in `evaluateRules` is passed in as
  the explicit argument `now`.
-/

/-- A JavaScript value (`undefined` is modelled as `Option.none` at use
sites, so it is not a constructor here). -/
inductive JValue where
  | null : JValue
  | bool (b : Bool) : JValue
  | num (q : Rat) : JValue
  | str (s : String) : JValue
  | arr (elems : List JValue) : JValue
  | obj (fields : List (String × JValue)) : JValue

/-- First-match association-list lookup: the embedding of `o[k]` reads on a
JS object (missing key gives `undefined`, i.e. `none`). -/
def lookupA {α : Type} : List (String × α) → String → Option α
  | [], _ => none
  | (k, v) :: rest, key => if k = key then some v else lookupA rest key

/-- Update-in-place-or-append: the embedding of the JS assignment
`o[k] = v` on an object whose keys are in insertion order. -/
def setA {α : Type} : List (String × α) → String → α → List (String × α)
  | [], key, v => [(key, v)]
  | (k, w) :: rest, key, v =>
    if k = key then (key, v) :: rest else (k, w) :: setA rest key v

/-- Rendering of a number, standing in for the host's number-to-string
conversion.  Integral values (the only numbers the repository's data and
the claims exercise) render exactly as in JS; non-integral rationals get a
deterministic `num/den` rendering. -/
def ratToString (q : Rat) : String :=
  if q.den = 1 then toString q.num
  else toString q.num ++ "/" ++ toString q.den

mutual
/-- The embedding of JS `String(v)` string coercion. -/
def jsToString : JValue → String
  | JValue.null => "null"
  | JValue.bool b => if b then "true" else "false"
  | JValue.num q => ratToString q
  | JValue.str s => s
  | JValue.arr xs => String.intercalate "," (jsToStringElems xs)
  | JValue.obj _ => "[object Object]"

/-- Array elements under `String(...)`: `null` elements render as the
empty string, as in `Array.prototype.toString`. -/
def jsToStringElems : List JValue → List String
  | [] => []
  | JValue.null :: rest => "" :: jsToStringElems rest
  | v :: rest => jsToString v :: jsToStringElems rest
end

/-- Value of a decimal digit list (most significant first). -/
def digitsVal (ds : List Char) : Nat :=
  ds.foldl (fun a c => a * 10 + (c.toNat - 48)) 0

/-- Parse a string of decimal digits (structural implementation of the
host's canonical nonnegative-integer parse, used for array indexing). -/
def strToNat? (s : String) : Option Nat :=
  if !s.data.isEmpty && s.data.all Char.isDigit then some (digitsVal s.data)
  else none

/-- Lower-casing, as JS `toLowerCase` (structural implementation; the
engine's data is ASCII, where the two agree). -/
def jsToLower (s : String) : String :=
  String.mk (s.data.map Char.toLower)

/-- Numeric value of a (trimmed, nonempty) digit string with optional sign
and fractional part: the embedding of a successful JS `Number(string)`
parse.  Exotic forms (exponents, hex, `Infinity`) are not modelled; the
repository's data never produces them. -/
def parseDec (cs : List Char) : Option Rat :=
  let signAndRest : Rat × List Char :=
    match cs with
    | '+' :: r => (1, r)
    | '-' :: r => (-1, r)
    | r => (1, r)
  let sign := signAndRest.1
  let body := signAndRest.2
  let intPart := body.takeWhile Char.isDigit
  let rest := body.dropWhile Char.isDigit
  match rest with
  | [] => if intPart.isEmpty then none else some (sign * (digitsVal intPart : Rat))
  | '.' :: rest2 =>
    let fracPart := rest2.takeWhile Char.isDigit
    let rest3 := rest2.dropWhile Char.isDigit
    if rest3.isEmpty && !(intPart.isEmpty && fracPart.isEmpty) then
      some (sign * ((digitsVal intPart : Rat) +
        (digitsVal fracPart : Rat) / ((10 : Rat) ^ fracPart.length)))
    else none
  | _ => none

/-- Whitespace trimming on both ends, as `Number(string)` performs before
parsing (structural implementation of the host's trim). -/
def jsTrim (s : String) : String :=
  String.mk (((s.data.dropWhile Char.isWhitespace).reverse.dropWhile Char.isWhitespace).reverse)

/-- The embedding of JS `Number(string)`: whitespace-trimmed, empty means
`0`, otherwise a decimal parse; `none` stands for `NaN`. -/
def parseNumber (s : String) : Option Rat :=
  let t := jsTrim s
  if t = "" then some 0 else parseDec t.data

/-- The embedding of JS `Number(v)` numeric coercion; `none` stands for
`NaN`. -/
def toNumber : JValue → Option Rat
  | JValue.null => some 0
  | JValue.bool b => some (if b then 1 else 0)
  | JValue.num q => some q
  | JValue.str s => parseNumber s
  | JValue.arr xs => parseNumber (jsToString (JValue.arr xs))
  | JValue.obj _ => none

/-- `a > b` on JS numbers: `NaN` (here `none`) on either side is `false`. -/
def numGtB : Option Rat → Option Rat → Bool
  | some a, some b => decide (b < a)
  | _, _ => false

/-- `a < b` on JS numbers: `NaN` on either side is `false`. -/
def numLtB : Option Rat → Option Rat → Bool
  | some a, some b => decide (a < b)
  | _, _ => false

/-- `a >= b` on JS numbers: `NaN` on either side is `false`. -/
def numGeB : Option Rat → Option Rat → Bool
  | some a, some b => decide (b ≤ a)
  | _, _ => false

/-- `a <= b` on JS numbers: `NaN` on either side is `false`. -/
def numLeB : Option Rat → Option Rat → Bool
  | some a, some b => decide (a ≤ b)
  | _, _ => false

/-- The embedding of `String.prototype.includes`: for a nonempty needle,
`splitOn` yields at least two pieces exactly when the needle occurs. -/
def strIncludes (s target : String) : Bool :=
  target.isEmpty || decide (2 ≤ (s.splitOn target).length)

/-! ## `getByPath` (source: `src/lib/evaluator.ts`, lines 40-51) -/

/-- `typeof current === 'object'` for a non-`null` value: objects and
arrays are object-like, primitives are not. -/
def isObjectLike : JValue → Bool
  | JValue.obj _ => true
  | JValue.arr _ => true
  | _ => false

/-- One property read `(current as Record<string, unknown>)[part]` on an
object-like value.  On an object this is key lookup; on an array a
canonical decimal index selects the element (JS arrays are objects whose
element properties are the index strings) and `"length"` gives the length.
Inherited prototype properties are functions, outside this data model, and
are not represented. -/
def getField : JValue → String → Option JValue
  | JValue.obj fields, key => lookupA fields key
  | JValue.arr elems, key =>
    if key = "length" then some (JValue.num (elems.length : Rat))
    else
      match strToNat? key with
      | some i => if key = Nat.repr i then elems.get? i else none
      | none => none
  | _, _ => none

/-- The `for (const part of parts)` loop of `getByPath`: `none` is JS
`undefined`.  `null`/`undefined` short-circuit first, then the
`typeof current !== 'object'` guard rejects primitives. -/
def getByPathAux : Option JValue → List String → Option JValue
  | current, [] => current
  | none, _ :: _ => none
  | some JValue.null, _ :: _ => none
  | some v, part :: rest =>
    if isObjectLike v then getByPathAux (getField v part) rest else none

/-- The embedding of `path.split('.')` (structurally recursive so that it
evaluates): `""` splits to `[""]`, adjacent dots yield empty segments, as
in JS. -/
def splitDotAux : List Char → List Char → List String
  | [], acc => [String.mk acc.reverse]
  | c :: rest, acc =>
    if c = '.' then String.mk acc.reverse :: splitDotAux rest []
    else splitDotAux rest (c :: acc)

/-- `path.split('.')`. -/
def splitDot (s : String) : List String :=
  splitDotAux s.data []

/-- Get value from a nested object using a dot-notation path
(source: `getByPath`). -/
def getByPath (obj : JValue) (path : String) : Option JValue :=
  getByPathAux (some obj) (splitDot path)

/-! ## `checkCondition` (source: `src/lib/evaluator.ts`, lines 56-87) -/

/-- Check if a condition is satisfied (source: `checkCondition`).  The
source value is `Option JValue` because `getByPath` can produce
`undefined`; the guard at the top returns `false` for `undefined`/`null`
before any operator runs. -/
def checkCondition (sourceValue : Option JValue) (op : String)
    (targetValue : JValue) : Bool :=
  match sourceValue with
  | none => false
  | some JValue.null => false
  | some source =>
    match op with
    | ">" => numGtB (toNumber source) (toNumber targetValue)
    | "<" => numLtB (toNumber source) (toNumber targetValue)
    | ">=" => numGeB (toNumber source) (toNumber targetValue)
    | "<=" => numLeB (toNumber source) (toNumber targetValue)
    | "=" => decide (jsToLower (jsToString source) = jsToLower (jsToString targetValue))
    | "contains" => strIncludes (jsToLower (jsToString source)) (jsToLower (jsToString targetValue))
    | "in" =>
      match targetValue with
      | JValue.arr vs =>
        vs.any (fun v => decide (jsToLower (jsToString v) = jsToLower (jsToString source)))
      | _ => false
    | _ => false

/-! ## Data model (source: `src/lib/types.ts`; persistence-only metadata
fields the evaluator never reads — `scopes`, `metadata`, `version`,
`created_at`, `updated_at` — are omitted) -/

inductive RuleStatus where
  | DRAFT : RuleStatus
  | ACTIVE : RuleStatus
  | INACTIVE : RuleStatus
deriving DecidableEq

inductive RuleEvent where
  | LOGIN : RuleEvent
  | SALARY_CREDIT : RuleEvent
  | TRANSFER_POSTED : RuleEvent
  | MARKETPLACE_VIEW : RuleEvent
deriving DecidableEq

/-- A declarative condition.  The operator is kept as a raw string, as in
`checkCondition`'s signature, so that unknown operators are expressible. -/
structure Condition where
  source : String
  op : String
  value : JValue

/-- A declarative effect.  The type tag is a raw string (the source
switches on it and ignores unknown tags); the payload fields are optional
exactly as in the TS type. -/
structure Effect where
  type : String
  score : Option String := none
  delta : Option Rat := none
  tag : Option String := none

structure Rule where
  id : String
  name : String
  status : RuleStatus
  priority : Rat
  event : RuleEvent
  conditions : List Condition
  effects : List Effect

structure Profile where
  customer_id : String
  static_data : List (String × JValue)
  behavioral : List (String × JValue)
  scores : List (String × Rat)
  tags : List String
  last_updated : String

structure SimulationEvent where
  type : RuleEvent
  payload : List (String × JValue)

structure TraceEntry where
  ruleId : String
  ruleName : String
  effectDescription : String

structure Product where
  id : String
  name : String
  required_scores : Option (List (String × Rat)) := none
  weight_by_score : Option (List (String × Rat)) := none
  exclusions : Option (List String) := none
  active : Bool

inductive Decision where
  | SHOWN : Decision
  | HIDDEN : Decision
deriving DecidableEq

structure ProductRecommendation where
  product : Product
  decision : Decision
  rank : Nat
  score : Rat
  why : List String
  scoreBreakdown : List (String × Rat)

/-! ## `buildContext` and `applyEffect`
(source: `src/lib/evaluator.ts`, lines 92-141) -/

/-- Build the context object for condition evaluation
(source: `buildContext`). -/
def buildContext (profile : Profile) (event : SimulationEvent) : JValue :=
  JValue.obj [
    ("event", JValue.obj event.payload),
    ("profile", JValue.obj [
      ("static", JValue.obj profile.static_data),
      ("behavioral", JValue.obj profile.behavioral),
      ("scores", JValue.obj (profile.scores.map (fun kv => (kv.1, JValue.num kv.2)))),
      ("tags", JValue.arr (profile.tags.map JValue.str))])]

/-- Apply one effect to a profile (source: `applyEffect`), returning the
`(description, profile)` pair.  The source's
`JSON.parse(JSON.stringify(profile))` deep copy is the identity here.  The
truthiness tests `effect.score &&`/`effect.tag &&` make the empty string
behave like a missing field; `effect.delta !== undefined` does not (a zero
delta passes). -/
def applyEffect (profile : Profile) (effect : Effect) : String × Profile :=
  match effect.type with
  | "scoreDelta" =>
    match effect.score, effect.delta with
    | some score, some delta =>
      if score ≠ "" then
        let currentScore := (lookupA profile.scores score).getD 0
        let newValue := currentScore + delta
        let sign := if (0 : Rat) ≤ delta then "+" else ""
        (score ++ " " ++ sign ++ ratToString delta ++ " (" ++ ratToString currentScore
          ++ " → " ++ ratToString newValue ++ ")",
         { profile with scores := setA profile.scores score newValue })
      else ("", profile)
    | _, _ => ("", profile)
  | "addTag" =>
    match effect.tag with
    | some tag =>
      if tag ≠ "" && !(decide (tag ∈ profile.tags)) then
        ("Added tag \"" ++ tag ++ "\"", { profile with tags := profile.tags ++ [tag] })
      else ("", profile)
    | none => ("", profile)
  | "removeTag" =>
    match effect.tag with
    | some tag =>
      if tag ≠ "" then
        -- indexOf ≥ 0 followed by splice(idx, 1): remove the first occurrence
        if decide (tag ∈ profile.tags) then
          ("Removed tag \"" ++ tag ++ "\"", { profile with tags := profile.tags.erase tag })
        else ("", profile)
      else ("", profile)
    | none => ("", profile)
  | _ => ("", profile)

/-! ## `evaluateRules` (source: `src/lib/evaluator.ts`, lines 146-199) -/

/-- `rule.conditions.every(...)`: all conditions hold in the given
context. -/
def ruleMatches (context : JValue) (rule : Rule) : Bool :=
  rule.conditions.all (fun condition =>
    checkCondition (getByPath context condition.source) condition.op condition.value)

/-- The inner `for (const effect of rule.effects)` loop: thread the
profile through the effects, collecting the non-empty descriptions. -/
def applyEffects (profile : Profile) (effects : List Effect) : Profile × List String :=
  effects.foldl (fun acc effect =>
    let result := applyEffect acc.1 effect
    (result.2, if result.1 ≠ "" then acc.2 ++ [result.1] else acc.2)) (profile, [])

/-- The body of the `for (const rule of matchingRules)` loop: build a
fresh context from the current running profile, and if all conditions
hold, apply the effects and append one trace entry. -/
def fireRule (event : SimulationEvent) (acc : Profile × List TraceEntry)
    (rule : Rule) : Profile × List TraceEntry :=
  let context := buildContext acc.1 event
  if ruleMatches context rule then
    let applied := applyEffects acc.1 rule.effects
    let entry : TraceEntry :=
      { ruleId := rule.id, ruleName := rule.name,
        effectDescription := String.intercalate "; " applied.2 }
    (applied.1, acc.2 ++ [entry])
  else acc

/-- Stable insertion of `x` into `l`: `x` goes before the first element
`y` with `le x y`.  With `le a b` read as "`a` may precede `b`"
(comparator result ≤ 0), `foldr`-insertion reproduces exactly the stable
sort JS `Array.prototype.sort` performs. -/
def insertLe {α : Type} (le : α → α → Bool) (x : α) : List α → List α
  | [] => [x]
  | y :: ys => if le x y then x :: y :: ys else y :: insertLe le x ys

/-- Stable sort by `le` (the embedding of `[...l].sort(comparator)` for a
comparator whose "precedes-or-ties" relation is `le`). -/
def isort {α : Type} (le : α → α → Bool) : List α → List α
  | [] => []
  | x :: xs => insertLe le x (isort le xs)

/-- The comparator `(a, b) => b.priority - a.priority`: `a`
precedes-or-ties `b` exactly when `a.priority ≥ b.priority`. -/
def ruleLe (a b : Rule) : Bool :=
  decide (b.priority ≤ a.priority)

/-- Evaluate rules against a profile and events (source: `evaluateRules`).
The source's initial deep copy of the profile is the identity here, and
the impure `new Date().toISOString()` written to `last_updated` is the
explicit argument `now`. -/
def evaluateRules (rules : List Rule) (initialProfile : Profile)
    (events : List SimulationEvent) (now : String) : Profile × List TraceEntry :=
  let sortedRules := isort ruleLe rules
  let result := events.foldl (fun acc event =>
    let matchingRules := sortedRules.filter (fun r =>
      decide (r.status = RuleStatus.ACTIVE) && decide (r.event = event.type))
    matchingRules.foldl (fireRule event) acc) (initialProfile, [])
  ({ result.1 with last_updated := now }, result.2)

/-- Modelled from the spec's wording of the algorithm (§4.4): filter to
ACTIVE rules first, stable-sort those by priority descending, and per
event select by event type — to be proved equal to `evaluateRules`, whose
source sorts the whole list first and filters status and event together
per event. -/
def evaluateRulesSpec (rules : List Rule) (initialProfile : Profile)
    (events : List SimulationEvent) (now : String) : Profile × List TraceEntry :=
  let activeRules := rules.filter (fun r => decide (r.status = RuleStatus.ACTIVE))
  let sortedActive := isort ruleLe activeRules
  let result := events.foldl (fun acc event =>
    (sortedActive.filter (fun r => decide (r.event = event.type))).foldl
      (fireRule event) acc) (initialProfile, [])
  ({ result.1 with last_updated := now }, result.2)

/-! ## `recommend` (source: `src/lib/evaluator.ts`, lines 204-279) -/

/-- `Math.round(q * 100) / 100`: JS `Math.round` rounds half toward
positive infinity, i.e. `⌊x + 1/2⌋`. -/
def jsRound2 (q : Rat) : Rat :=
  ((⌊q * 100 + 1 / 2⌋ : Int) : Rat) / 100

/-- A JS template literal interpolates `undefined` as the string
`"undefined"`. -/
def optString : Option String → String
  | some s => s
  | none => "undefined"

/-- One iteration of the `for (const [scoreName, threshold] of
Object.entries(requiredScores))` loop: reads the profile score (absent
means 0), records it in the breakdown, appends a pass or fail line to
`why`, and clears `allScoresMet` on failure.  The accumulator is
`(why, scoreBreakdown, allScoresMet)`. -/
def thresholdStep (profile : Profile) (acc : List String × List (String × Rat) × Bool)
    (entry : String × Rat) : List String × List (String × Rat) × Bool :=
  let profileScore := (lookupA profile.scores entry.1).getD 0
  let breakdown := setA acc.2.1 entry.1 profileScore
  if entry.2 ≤ profileScore then
    (acc.1 ++ ["✓ " ++ entry.1 ++ ": " ++ ratToString profileScore ++ " ≥ "
      ++ ratToString entry.2], breakdown, acc.2.2)
  else
    (acc.1 ++ ["✗ " ++ entry.1 ++ ": " ++ ratToString profileScore ++ " < "
      ++ ratToString entry.2 ++ " required"], breakdown, false)

/-- The `for (const [scoreName, weight] of Object.entries(weights))`
accumulation: `rankScore += (profile.scores[scoreName] || 0) * weight`. -/
def rankScoreOf (profile : Profile) (weights : List (String × Rat)) : Rat :=
  weights.foldl (fun acc entry => acc + (lookupA profile.scores entry.1).getD 0 * entry.2) 0

/-- The body of `recommend`'s `for (const product of products)` loop for
one active product: exclusion check, threshold checks, ranking score. -/
def recommendOne (profile : Profile) (product : Product) : ProductRecommendation :=
  let exclusions := product.exclusions.getD []
  let hasExclusion := exclusions.any (fun tag => decide (tag ∈ profile.tags))
  if hasExclusion then
    let matchedExclusion := exclusions.find? (fun tag => decide (tag ∈ profile.tags))
    { product := product, decision := Decision.HIDDEN, rank := 0,
      score := jsRound2 0,
      why := ["Excluded: customer has \"" ++ optString matchedExclusion ++ "\" tag"],
      scoreBreakdown := [] }
  else
    let requiredScores := product.required_scores.getD []
    let checks := requiredScores.foldl (thresholdStep profile) ([], [], true)
    let decision := if !checks.2.2 then Decision.HIDDEN else Decision.SHOWN
    let rankScore := rankScoreOf profile (product.weight_by_score.getD [])
    { product := product, decision := decision, rank := 0,
      score := jsRound2 rankScore, why := checks.1, scoreBreakdown := checks.2.1 }

/-- The recommendation comparator: if the decisions differ, SHOWN
precedes; otherwise `b.score - a.score`, so `a` precedes-or-ties `b`
exactly when `a.score ≥ b.score`. -/
def recLe (a b : ProductRecommendation) : Bool :=
  if a.decision ≠ b.decision then decide (a.decision = Decision.SHOWN)
  else decide (b.score ≤ a.score)

/-- The final `recommendations.forEach((rec, idx) => rec.rank = idx + 1)`
pass, as a recursion carrying the next rank. -/
def assignRanks : Nat → List ProductRecommendation → List ProductRecommendation
  | _, [] => []
  | n, rec :: rest => { rec with rank := n } :: assignRanks (n + 1) rest

/-- Generate product recommendations (source: `recommend`).  The
`for`/`continue`/`push` loop over products is filter-then-map; the JS
stable sort is `isort`. -/
def recommend (products : List Product) (profile : Profile) : List ProductRecommendation :=
  let recommendations := (products.filter (fun p => p.active)).map (recommendOne profile)
  let sorted := isort recLe recommendations
  assignRanks 1 sorted

/-! ## Concrete fixtures used by witnesses and counterexamples -/

def profileA : Profile :=
  { customer_id := "cust-1", static_data := [], behavioral := [],
    scores := [("financialStability", 52)], tags := ["existing"],
    last_updated := "2024-01-01T00:00:00Z" }

def draftRule : Rule :=
  { id := "r-draft", name := "Draft rule", status := RuleStatus.DRAFT, priority := 50,
    event := RuleEvent.LOGIN, conditions := [],
    effects := [{ type := "addTag", tag := some "x" }] }

def loginEvent : SimulationEvent :=
  { type := RuleEvent.LOGIN, payload := [] }

def addTagE (t : String) : Effect :=
  { type := "addTag", tag := some t }

def emptyTagsProfile : Profile :=
  { customer_id := "cust-2", static_data := [], behavioral := [],
    scores := [], tags := [], last_updated := "t0" }

def dupTagsProfile : Profile :=
  { customer_id := "cust-3", static_data := [], behavioral := [],
    scores := [], tags := ["dup", "dup"], last_updated := "t0" }

def exclProduct : Product :=
  { id := "p-home-loan", name := "Home Loan", required_scores := none,
    weight_by_score := some [("financialStability", 2)],
    exclusions := some ["has-home-loan"], active := true }

def exclProfile : Profile :=
  { customer_id := "cust-4", static_data := [], behavioral := [],
    scores := [("financialStability", 52)], tags := ["has-home-loan"],
    last_updated := "t0" }

def exclRec : ProductRecommendation :=
  { product := exclProduct, decision := Decision.HIDDEN, rank := 1, score := 0,
    why := ["Excluded: customer has \"has-home-loan\" tag"], scoreBreakdown := [] }

def thrProduct : Product :=
  { id := "p-thr", name := "Mortgage Offer",
    required_scores := some [("financialStability", 60), ("homeOwnershipIntent", 50)],
    weight_by_score := none, exclusions := none, active := true }

def thrProfile : Profile :=
  { customer_id := "cust-5", static_data := [], behavioral := [],
    scores := [("financialStability", 62), ("homeOwnershipIntent", 35)], tags := [],
    last_updated := "t0" }

def thrRec : ProductRecommendation :=
  { product := thrProduct, decision := Decision.HIDDEN, rank := 1, score := 0,
    why := ["✓ financialStability: 62 ≥ 60", "✗ homeOwnershipIntent: 35 < 50 required"],
    scoreBreakdown := [("financialStability", 62), ("homeOwnershipIntent", 35)] }

/-- Erase the rank assigned after sorting (for stating stability). -/
def unrank (r : ProductRecommendation) : ProductRecommendation :=
  { r with rank := 0 }

def e9 : Effect :=
  { type := "scoreDelta", score := some "financialStability" }

/-! ## Generic lemmas about the stable insertion sort -/

theorem insertLe_perm {α : Type} (le : α → α → Bool) (x : α) (l : List α) :
    (insertLe le x l).Perm (x :: l) := by
  induction l with
  | nil => exact List.Perm.refl _
  | cons y ys ih =>
    by_cases h : le x y
    · simp [insertLe, h]
    · simp only [insertLe, h, if_neg, Bool.false_eq_true, ite_false]
      exact (ih.cons y).trans (List.Perm.swap x y ys)

theorem isort_perm {α : Type} (le : α → α → Bool) (l : List α) :
    (isort le l).Perm l := by
  induction l with
  | nil => exact List.Perm.refl _
  | cons x xs ih => exact (insertLe_perm le x (isort le xs)).trans (ih.cons x)

theorem mem_isort {α : Type} (le : α → α → Bool) (l : List α) (a : α) :
    a ∈ isort le l ↔ a ∈ l :=
  (isort_perm le l).mem_iff

theorem mem_insertLe {α : Type} (le : α → α → Bool) (x : α) (l : List α) (a : α) :
    a ∈ insertLe le x l ↔ a = x ∨ a ∈ l := by
  rw [(insertLe_perm le x l).mem_iff, List.mem_cons]

theorem pairwise_insertLe {α : Type} {le : α → α → Bool}
    (htot : ∀ a b, le a b = true ∨ le b a = true)
    (htrans : ∀ a b c, le a b = true → le b c = true → le a c = true)
    (x : α) :
    ∀ l : List α, l.Pairwise (fun a b => le a b = true) →
      (insertLe le x l).Pairwise (fun a b => le a b = true) := by
  intro l
  induction l with
  | nil => intro _; simp [insertLe]
  | cons y ys ih =>
    intro hl
    rcases List.pairwise_cons.mp hl with ⟨hy, hys⟩
    by_cases h : le x y = true
    · simp only [insertLe, h, ite_true]
      refine List.pairwise_cons.mpr ⟨?_, hl⟩
      intro z hz
      rcases List.mem_cons.mp hz with hzy | hz
      · exact hzy ▸ h
      · exact htrans x y z h (hy z hz)
    · simp only [insertLe, h, Bool.false_eq_true, ite_false]
      refine List.pairwise_cons.mpr ⟨?_, ih hys⟩
      intro z hz
      rcases (mem_insertLe le x ys z).mp hz with hzx | hz
      · rw [hzx]
        cases htot x y with
        | inl hxy => exact absurd hxy h
        | inr hyx => exact hyx
      · exact hy z hz

theorem pairwise_isort {α : Type} {le : α → α → Bool}
    (htot : ∀ a b, le a b = true ∨ le b a = true)
    (htrans : ∀ a b c, le a b = true → le b c = true → le a c = true)
    (l : List α) :
    (isort le l).Pairwise (fun a b => le a b = true) := by
  induction l with
  | nil => simp [isort]
  | cons x xs ih => exact pairwise_insertLe htot htrans x (isort le xs) ih

theorem filter_insertLe_of_neg {α : Type} {le : α → α → Bool} {P : α → Bool}
    {x : α} (hx : P x = false) :
    ∀ l : List α, (insertLe le x l).filter P = l.filter P := by
  intro l
  induction l with
  | nil => simp [insertLe, hx]
  | cons y ys ih =>
    by_cases h : le x y = true
    · simp [insertLe, h, hx]
    · simp only [insertLe, h, Bool.false_eq_true, ite_false]
      by_cases hy : P y = true
      · simp [List.filter_cons, hy, ih]
      · simp only [Bool.not_eq_true] at hy
        simp [List.filter_cons, hy, ih]

theorem filter_insertLe_of_pos {α : Type} {le : α → α → Bool} {P : α → Bool}
    {x : α} (hx : P x = true) :
    ∀ l : List α, (∀ y ∈ l, P y = true → le x y = true) →
      (insertLe le x l).filter P = x :: l.filter P := by
  intro l
  induction l with
  | nil => simp [insertLe, hx]
  | cons y ys ih =>
    intro hall
    by_cases h : le x y = true
    · simp [insertLe, h, List.filter_cons, hx]
    · have hy : P y = false := by
        by_contra hc
        simp only [Bool.not_eq_false] at hc
        exact h (hall y (List.mem_cons_self y ys) hc)
      simp only [insertLe, h, Bool.false_eq_true, ite_false, List.filter_cons, hy,
        Bool.false_eq_true, ite_false]
      exact ih (fun z hz hPz => hall z (List.mem_cons_of_mem y hz) hPz)

/-- Stability of the sort: a class of pairwise-tied elements comes out in
its original input order. -/
theorem isort_filter_ties {α : Type} {le : α → α → Bool} {P : α → Bool}
    (hP : ∀ a b, P a = true → P b = true → le a b = true) :
    ∀ l : List α, (isort le l).filter P = l.filter P := by
  intro l
  induction l with
  | nil => rfl
  | cons x xs ih =>
    by_cases hx : P x = true
    · have : (insertLe le x (isort le xs)).filter P = x :: (isort le xs).filter P := by
        refine filter_insertLe_of_pos hx _ ?_
        intro y _ hPy
        exact hP x y hx hPy
      simp only [isort, this, ih, List.filter_cons, hx, ite_true]
    · simp only [Bool.not_eq_true] at hx
      simp only [isort, filter_insertLe_of_neg hx, ih, List.filter_cons, hx,
        Bool.false_eq_true, ite_false]

theorem insertLe_eq_cons {α : Type} {le : α → α → Bool} {x : α} :
    ∀ {m : List α}, (∀ z ∈ m, le x z = true) → insertLe le x m = x :: m := by
  intro m h
  cases m with
  | nil => rfl
  | cons y ys => simp [insertLe, h y (List.mem_cons_self y ys)]

/-- On an already-sorted list, inserting an element kept by a filter
commutes with that filter. -/
theorem filter_insertLe_sorted {α : Type} {le : α → α → Bool} {Q : α → Bool}
    (htrans : ∀ a b c, le a b = true → le b c = true → le a c = true)
    {x : α} (hx : Q x = true) :
    ∀ m : List α, m.Pairwise (fun a b => le a b = true) →
      (insertLe le x m).filter Q = insertLe le x (m.filter Q) := by
  intro m
  induction m with
  | nil => simp [insertLe, hx]
  | cons y ys ih =>
    intro hm
    rcases List.pairwise_cons.mp hm with ⟨hy, hys⟩
    by_cases h : le x y = true
    · simp only [insertLe, h, ite_true, List.filter_cons]
      by_cases hQy : Q y = true
      · simp only [hx, ite_true, hQy]
        rw [insertLe_eq_cons]
        intro z hz
        rcases List.mem_cons.mp hz with hzy | hz
        · rw [hzy]; exact h
        · exact htrans x y z h (hy z ((List.mem_filter.mp hz).1))
      · simp only [Bool.not_eq_true] at hQy
        simp only [hx, ite_true, hQy, Bool.false_eq_true, ite_false]
        rw [insertLe_eq_cons]
        intro z hz
        exact htrans x y z h (hy z ((List.mem_filter.mp hz).1))
    · simp only [insertLe, h, Bool.false_eq_true, ite_false, List.filter_cons]
      by_cases hQy : Q y = true
      · simp only [hQy, ite_true, insertLe, h, Bool.false_eq_true, ite_false]
        rw [ih hys]
      · simp only [Bool.not_eq_true] at hQy
        simp only [hQy, Bool.false_eq_true, ite_false]
        exact ih hys

/-- Sorting commutes with filtering (for a total, transitive
precedes-or-ties relation): sort-then-filter equals filter-then-sort. -/
theorem isort_filter_comm {α : Type} {le : α → α → Bool} {Q : α → Bool}
    (htot : ∀ a b, le a b = true ∨ le b a = true)
    (htrans : ∀ a b c, le a b = true → le b c = true → le a c = true) :
    ∀ l : List α, (isort le l).filter Q = isort le (l.filter Q) := by
  intro l
  induction l with
  | nil => rfl
  | cons x xs ih =>
    by_cases hx : Q x = true
    · simp only [isort, List.filter_cons, hx, ite_true]
      rw [filter_insertLe_sorted htrans hx (isort le xs) (pairwise_isort htot htrans xs), ih]
    · simp only [Bool.not_eq_true] at hx
      simp only [isort, filter_insertLe_of_neg hx, ih, List.filter_cons, hx,
        Bool.false_eq_true, ite_false]

theorem ruleLe_total (a b : Rule) : ruleLe a b = true ∨ ruleLe b a = true := by
  simp only [ruleLe, decide_eq_true_eq]
  exact (le_total b.priority a.priority)

theorem ruleLe_trans (a b c : Rule) (h1 : ruleLe a b = true) (h2 : ruleLe b c = true) :
    ruleLe a c = true := by
  simp only [ruleLe, decide_eq_true_eq] at h1 h2 ⊢
  exact le_trans h2 h1

theorem recLe_iff (a b : ProductRecommendation) :
    recLe a b = true ↔
      (a.decision ≠ b.decision ∧ a.decision = Decision.SHOWN) ∨
      (a.decision = b.decision ∧ b.score ≤ a.score) := by
  unfold recLe
  by_cases h : a.decision = b.decision
  · simp [h]
  · simp [h]

theorem recLe_total (a b : ProductRecommendation) : recLe a b = true ∨ recLe b a = true := by
  rw [recLe_iff, recLe_iff]
  by_cases h : a.decision = b.decision
  · cases le_total b.score a.score with
    | inl hs => exact Or.inl (Or.inr ⟨h, hs⟩)
    | inr hs => exact Or.inr (Or.inr ⟨h.symm, hs⟩)
  · cases ha : a.decision with
    | SHOWN => exact Or.inl (Or.inl ⟨ha ▸ h, rfl⟩)
    | HIDDEN =>
      cases hb : b.decision with
      | SHOWN => exact Or.inr (Or.inl ⟨by decide, rfl⟩)
      | HIDDEN => exact absurd (ha.trans hb.symm) h

theorem recLe_trans (a b c : ProductRecommendation)
    (h1 : recLe a b = true) (h2 : recLe b c = true) : recLe a c = true := by
  rw [recLe_iff] at h1 h2 ⊢
  rcases h1 with ⟨hne1, hs1⟩ | ⟨heq1, hsc1⟩
  · rcases h2 with ⟨hne2, hs2⟩ | ⟨heq2, _⟩
    · exact absurd (hs1.trans hs2.symm) hne1
    · exact Or.inl ⟨fun hc => hne1 (hc.trans heq2.symm), hs1⟩
  · rcases h2 with ⟨hne2, hs2⟩ | ⟨heq2, hsc2⟩
    · exact Or.inl ⟨fun hc => hne2 (heq1.symm.trans hc), heq1.trans hs2⟩
    · exact Or.inr ⟨heq1.trans heq2, le_trans hsc2 hsc1⟩

theorem filter_and {α : Type} (P Q : α → Bool) (l : List α) :
    (l.filter P).filter Q = l.filter (fun a => P a && Q a) := by
  induction l with
  | nil => rfl
  | cons x xs ih =>
    by_cases hp : P x = true
    · by_cases hq : Q x = true
      · simp [List.filter_cons, hp, hq, ih]
      · simp only [Bool.not_eq_true] at hq
        simp [List.filter_cons, hp, hq, ih]
    · simp only [Bool.not_eq_true] at hp
      simp [List.filter_cons, hp, ih]

/-- Per-event rule selection: sorting the whole list and then filtering
status-and-event together (the source) equals filtering ACTIVE first,
sorting, then filtering by event (the spec's presentation). -/
theorem matchingRules_eq (rules : List Rule) (ev : SimulationEvent) :
    (isort ruleLe rules).filter (fun r =>
        decide (r.status = RuleStatus.ACTIVE) && decide (r.event = ev.type))
      = (isort ruleLe (rules.filter (fun r =>
          decide (r.status = RuleStatus.ACTIVE)))).filter
            (fun r => decide (r.event = ev.type)) := by
  rw [← isort_filter_comm ruleLe_total ruleLe_trans, filter_and]

theorem foldl_const {α β : Type} (l : List α) (init : β) :
    l.foldl (fun acc _ => acc) init = init := by
  induction l generalizing init with
  | nil => rfl
  | cons x xs ih => exact ih init

/-- C1: for every event processed by `evaluateRules`, the ACTIVE rules
whose event matches fire in descending priority order with ties broken by
original list order, and each rule's conditions are evaluated against a
context freshly built from the current running profile (the running
profile is threaded through `fireRule`, so effects of an earlier-firing
rule are visible to every later rule and to later events): the sorted rule
list is pairwise descending in priority, every equal-priority class keeps
its input order, and `evaluateRules` equals the spec-shaped
`evaluateRulesSpec`, whose per-event rule list is exactly the stably
sorted ACTIVE matching rules folded with `fireRule`. -/
theorem c1_rule_firing_order (rules : List Rule) (p : Profile)
    (events : List SimulationEvent) (now : String) :
    (isort ruleLe rules).Pairwise (fun a b => b.priority ≤ a.priority) ∧
    (∀ q : Rat, (isort ruleLe rules).filter (fun r => decide (r.priority = q))
        = rules.filter (fun r => decide (r.priority = q))) ∧
    evaluateRules rules p events now = evaluateRulesSpec rules p events now := by
  refine ⟨?_, ?_, ?_⟩
  · have h := pairwise_isort ruleLe_total ruleLe_trans rules
    exact h.imp (fun hab => by simpa [ruleLe, decide_eq_true_eq] using hab)
  · intro q
    refine isort_filter_ties ?_ rules
    intro a b ha hb
    simp only [decide_eq_true_eq] at ha hb
    simp [ruleLe, ha, hb]
  · simp only [evaluateRules, evaluateRulesSpec, matchingRules_eq]

/-- C2: with no ACTIVE rule in the rule set, `evaluateRules` returns the
input profile unchanged except for `last_updated` and an empty trace. -/
theorem c2_no_active_rules (rules : List Rule) (p : Profile)
    (events : List SimulationEvent) (now : String)
    (h : ∀ r ∈ rules, r.status ≠ RuleStatus.ACTIVE) :
    evaluateRules rules p events now = ({ p with last_updated := now }, []) := by
  unfold evaluateRules
  have hm : ∀ ev : SimulationEvent,
      (isort ruleLe rules).filter (fun r =>
        decide (r.status = RuleStatus.ACTIVE) && decide (r.event = ev.type)) = [] := by
    intro ev
    rw [List.filter_eq_nil_iff]
    intro r hr
    simp only [Bool.and_eq_true, decide_eq_true_eq, not_and]
    intro hact
    exact absurd hact (h r ((mem_isort ruleLe rules r).mp hr))
  simp only [hm, List.foldl_nil, foldl_const]

/-- Witness for C2: one DRAFT rule and one event; the profile comes back
unchanged except for the timestamp, with an empty trace. -/
theorem c2_no_active_rules_witness :
    (∀ r ∈ [draftRule], r.status ≠ RuleStatus.ACTIVE) ∧
    evaluateRules [draftRule] profileA [loginEvent] "2024-06-01T00:00:00Z"
      = ({ profileA with last_updated := "2024-06-01T00:00:00Z" }, []) := by
  have h : ∀ r ∈ [draftRule], r.status ≠ RuleStatus.ACTIVE := by decide
  exact ⟨h, c2_no_active_rules [draftRule] profileA [loginEvent] "2024-06-01T00:00:00Z" h⟩

/-- C6: for every operator (the seven known ones and any unknown string)
and every target value, a condition whose source value is absent
(undefined) or null evaluates to false. -/
theorem c6_absent_never_matches (op : String) (target : JValue) :
    checkCondition none op target = false ∧
    checkCondition (some JValue.null) op target = false :=
  ⟨rfl, rfl⟩

/-- C9: an effect with a missing required field (a scoreDelta lacking its
score or delta, an addTag/removeTag lacking its tag) or an unknown type is
a no-op: the profile comes back equal to the input with an empty
description, and no error is possible. -/
theorem c9_malformed_effect_noop (p : Profile) (e : Effect)
    (h : (e.type = "scoreDelta" ∧ (e.score = none ∨ e.delta = none)) ∨
         (e.type = "addTag" ∧ e.tag = none) ∨
         (e.type = "removeTag" ∧ e.tag = none) ∨
         (e.type ≠ "scoreDelta" ∧ e.type ≠ "addTag" ∧ e.type ≠ "removeTag")) :
    applyEffect p e = ("", p) := by
  obtain ⟨t, sc, d, tg⟩ := e
  simp only at h
  rcases h with ⟨ht, hmiss⟩ | ⟨ht, htag⟩ | ⟨ht, htag⟩ | ⟨h1, h2, h3⟩
  · subst ht
    rcases hmiss with hs | hd
    · subst hs
      cases d <;> rfl
    · subst hd
      cases sc <;> rfl
  · subst ht; subst htag; rfl
  · subst ht; subst htag; rfl
  · unfold applyEffect
    split
    · rename_i heq
      exact absurd heq h1
    · rename_i heq
      exact absurd heq h2
    · rename_i heq
      exact absurd heq h3
    · rfl

/-- C8 counterexample: quantified over every profile and tag, the claim
fails.  (1) the empty-string tag: absent from the profile, yet its first
addTag application appends nothing and produces an empty description
(`effect.tag &&` is falsy on `""`); (2) a profile whose caller-supplied
tag list already holds a tag twice: adding it is a no-op, so the tag does
not "occur exactly once" afterwards. -/
theorem c8_counterexample :
    (("" ∈ emptyTagsProfile.tags) = False ∧
      (applyEffect emptyTagsProfile (addTagE "")).2.tags ≠ emptyTagsProfile.tags ++ [""] ∧
      (applyEffect emptyTagsProfile (addTagE "")).1 = "") ∧
    (("dup" ∈ dupTagsProfile.tags) = True ∧
      (applyEffect dupTagsProfile (addTagE "dup")).2.tags.count "dup" ≠ 1) := by
  refine ⟨⟨by simp [emptyTagsProfile], by decide, rfl⟩, by simp [dupTagsProfile], by decide⟩

/-- C8 (amended): for every profile whose tag list is duplicate-free and
every non-empty tag: applying addTag for a present tag returns the profile
unchanged with an empty description and the tag still occurs exactly once;
the first application for an absent tag appends the tag and produces the
non-empty description `Added tag "<tag>"`; and a second application of the
same effect is a no-op with empty description, so applying the effect
twice equals applying it once. -/
theorem c8_addTag_idempotent (p : Profile) (t : String)
    (hne : t ≠ "") (hnd : p.tags.Nodup) :
    (t ∈ p.tags → applyEffect p (addTagE t) = ("", p) ∧ p.tags.count t = 1) ∧
    (t ∉ p.tags →
      (applyEffect p (addTagE t)).2.tags = p.tags ++ [t] ∧
      (applyEffect p (addTagE t)).1 = "Added tag \"" ++ t ++ "\"") ∧
    applyEffect (applyEffect p (addTagE t)).2 (addTagE t)
      = ("", (applyEffect p (addTagE t)).2) := by
  refine ⟨?_, ?_, ?_⟩
  · intro hmem
    constructor
    · simp [applyEffect, addTagE, hmem]
    · exact List.count_eq_one_of_mem hnd hmem
  · intro hmem
    constructor
    · simp [applyEffect, addTagE, hne, hmem]
    · simp [applyEffect, addTagE, hne, hmem]
  · by_cases hmem : t ∈ p.tags
    · simp [applyEffect, addTagE, hne, hmem]
    · simp [applyEffect, addTagE, hne, hmem]

/-- Witness for C8's amended statement at the concrete profile `profileA`
and tag `"stable-income"` (absent, non-empty). -/
theorem c8_addTag_idempotent_witness :
    ("stable-income" ≠ "" ∧ profileA.tags.Nodup) ∧
    (("stable-income" ∈ profileA.tags →
        applyEffect profileA (addTagE "stable-income") = ("", profileA) ∧
        profileA.tags.count "stable-income" = 1) ∧
     ("stable-income" ∉ profileA.tags →
        (applyEffect profileA (addTagE "stable-income")).2.tags
          = profileA.tags ++ ["stable-income"] ∧
        (applyEffect profileA (addTagE "stable-income")).1
          = "Added tag \"" ++ "stable-income" ++ "\"") ∧
     applyEffect (applyEffect profileA (addTagE "stable-income")).2 (addTagE "stable-income")
       = ("", (applyEffect profileA (addTagE "stable-income")).2)) :=
  ⟨⟨by decide, by decide⟩,
   c8_addTag_idempotent profileA "stable-income" (by decide) (by decide)⟩

/-- C7 counterexample: two calls of `evaluateRules` on identical rules,
profile and events, performed at different wall-clock times, return
different outputs (`last_updated` records the call time), so the output is
not a function of `(rules, profile, events)` alone. -/
theorem c7_counterexample :
    evaluateRules [] profileA [] "2024-01-01T00:00:00Z"
      ≠ evaluateRules [] profileA [] "2024-01-02T00:00:00Z" := by
  intro h
  have h2 := congrArg (fun r => r.1.last_updated) h
  simp only [evaluateRules, List.foldl_nil] at h2
  exact absurd h2 (by decide)

/-- C7 (amended): `evaluateRules` is deterministic modulo the clock: the
trace and every profile field except `last_updated` depend only on
`(rules, profile, events)`; `last_updated` is exactly the evaluation
timestamp; and the recommendations computed downstream from the output
profile do not depend on the timestamp either (`recommend`, which takes no
clock at all, is a pure function of `(products, profile)`). -/
theorem c7_determinism_mod_timestamp (rules : List Rule) (p : Profile)
    (events : List SimulationEvent) (now1 now2 : String) :
    (evaluateRules rules p events now1).2 = (evaluateRules rules p events now2).2 ∧
    (evaluateRules rules p events now1).1
      = { (evaluateRules rules p events now2).1 with last_updated := now1 } ∧
    (evaluateRules rules p events now1).1.last_updated = now1 ∧
    (∀ products : List Product,
      recommend products (evaluateRules rules p events now1).1
        = recommend products (evaluateRules rules p events now2).1) := by
  refine ⟨rfl, rfl, rfl, ?_⟩
  intro products
  rfl

/-! ## Lemmas about `recommend` -/

theorem lookupA_setA {α : Type} (l : List (String × α)) (key k : String) (v : α) :
    lookupA (setA l key v) k = if key = k then some v else lookupA l k := by
  induction l with
  | nil => simp [setA, lookupA]
  | cons kv rest ih =>
    obtain ⟨k0, v0⟩ := kv
    by_cases h : k0 = key
    · subst h
      simp only [setA, if_pos rfl, lookupA]
      by_cases hk : k0 = k <;> simp [hk]
    · simp only [setA, if_neg h, lookupA, ih]
      by_cases hk : k0 = k <;> by_cases hk2 : key = k
      · exact absurd (hk.trans hk2.symm) h
      · simp [hk, hk2]
      · simp [hk, hk2]
      · simp [hk, hk2]

theorem thresholdStep_breakdown (profile : Profile)
    (acc : List String × List (String × Rat) × Bool) (st : String × Rat) :
    (thresholdStep profile acc st).2.1
      = setA acc.2.1 st.1 ((lookupA profile.scores st.1).getD 0) := by
  unfold thresholdStep
  dsimp only
  split <;> rfl

theorem thresholdStep_met (profile : Profile)
    (acc : List String × List (String × Rat) × Bool) (st : String × Rat) :
    (thresholdStep profile acc st).2.2
      = (acc.2.2 && decide (st.2 ≤ (lookupA profile.scores st.1).getD 0)) := by
  unfold thresholdStep
  dsimp only
  by_cases h : st.2 ≤ (lookupA profile.scores st.1).getD 0
  · simp [h]
  · simp [h]

theorem thresholdFold_met (profile : Profile) :
    ∀ (l : List (String × Rat)) (acc : List String × List (String × Rat) × Bool),
      (l.foldl (thresholdStep profile) acc).2.2
        = (acc.2.2 && l.all (fun st =>
            decide (st.2 ≤ (lookupA profile.scores st.1).getD 0))) := by
  intro l
  induction l with
  | nil => intro acc; simp
  | cons st rest ih =>
    intro acc
    rw [List.foldl_cons, ih, thresholdStep_met, List.all_cons, Bool.and_assoc]

theorem thresholdFold_breakdown (profile : Profile) :
    ∀ (l : List (String × Rat)) (acc : List String × List (String × Rat) × Bool)
      (k : String),
      lookupA (l.foldl (thresholdStep profile) acc).2.1 k
        = if l.any (fun st => decide (st.1 = k))
          then some ((lookupA profile.scores k).getD 0)
          else lookupA acc.2.1 k := by
  intro l
  induction l with
  | nil => intro acc k; simp
  | cons st rest ih =>
    intro acc k
    rw [List.foldl_cons, ih, List.any_cons]
    by_cases hr : rest.any (fun st => decide (st.1 = k)) = true
    · simp [hr]
    · simp only [Bool.not_eq_true] at hr
      by_cases hk : st.1 = k
      · simp [hr, hk, thresholdStep_breakdown, lookupA_setA]
      · simp [hr, hk, thresholdStep_breakdown, lookupA_setA]

theorem recommendOne_product (profile : Profile) (product : Product) :
    (recommendOne profile product).product = product := by
  unfold recommendOne
  dsimp only
  split <;> rfl

theorem recommendOne_rank (profile : Profile) (product : Product) :
    (recommendOne profile product).rank = 0 := by
  unfold recommendOne
  dsimp only
  split <;> rfl

unseal Rat.mul Rat.add Rat.inv in
theorem jsRound2_zero : jsRound2 0 = 0 := by rfl

theorem recommendOne_excluded (profile : Profile) (product : Product)
    (h : ∃ t ∈ product.exclusions.getD [], t ∈ profile.tags) :
    recommendOne profile product
      = { product := product, decision := Decision.HIDDEN, rank := 0, score := jsRound2 0,
          why := ["Excluded: customer has \"" ++
            optString ((product.exclusions.getD []).find?
              (fun tag => decide (tag ∈ profile.tags))) ++ "\" tag"],
          scoreBreakdown := [] } := by
  have hx : (product.exclusions.getD []).any (fun tag => decide (tag ∈ profile.tags)) = true := by
    rw [List.any_eq_true]
    obtain ⟨t, ht, htag⟩ := h
    exact ⟨t, ht, by simpa using htag⟩
  unfold recommendOne
  simp only [hx, if_true]

theorem recommendOne_not_excluded_fields (profile : Profile) (product : Product)
    (h : ∀ t ∈ product.exclusions.getD [], t ∉ profile.tags) :
    ((recommendOne profile product).decision = Decision.HIDDEN ↔
       ∃ st ∈ product.required_scores.getD [],
         (lookupA profile.scores st.1).getD 0 < st.2) ∧
    (∀ st ∈ product.required_scores.getD [],
       lookupA (recommendOne profile product).scoreBreakdown st.1
         = some ((lookupA profile.scores st.1).getD 0)) ∧
    (recommendOne profile product).score
      = jsRound2 (rankScoreOf profile (product.weight_by_score.getD [])) := by
  have hx : (product.exclusions.getD []).any (fun tag => decide (tag ∈ profile.tags)) = false := by
    rw [Bool.eq_false_iff]
    intro hc
    rw [List.any_eq_true] at hc
    obtain ⟨t, ht, htag⟩ := hc
    exact h t ht (by simpa using htag)
  unfold recommendOne
  simp only [hx, Bool.false_eq_true, if_false]
  refine ⟨?_, ?_, trivial⟩
  · rw [thresholdFold_met]
    simp only [Bool.true_and]
    by_cases hall : (product.required_scores.getD []).all
        (fun st => decide (st.2 ≤ (lookupA profile.scores st.1).getD 0)) = true
    · simp only [hall, Bool.not_true, Bool.false_eq_true, if_false]
      constructor
      · intro hc
        exact absurd hc (by decide)
      · intro ⟨st, hst, hlt⟩
        rw [List.all_eq_true] at hall
        have := hall st hst
        simp only [decide_eq_true_eq] at this
        exact absurd this (not_le.mpr hlt)
    · simp only [Bool.not_eq_true] at hall
      simp only [hall, Bool.not_false]
      refine iff_of_true (by simp) ?_
      have hne : ¬ ∀ st ∈ product.required_scores.getD [],
          decide (st.2 ≤ (lookupA profile.scores st.1).getD 0) = true := by
        intro hc
        exact absurd (List.all_eq_true.mpr hc) (by simp [hall])
      push_neg at hne
      obtain ⟨st, hst, hfail⟩ := hne
      refine ⟨st, hst, ?_⟩
      simp only [ne_eq, decide_eq_true_eq] at hfail
      exact not_le.mp hfail
  · intro st hst
    rw [thresholdFold_breakdown]
    have hany : (product.required_scores.getD []).any
        (fun st2 => decide (st2.1 = st.1)) = true := by
      rw [List.any_eq_true]
      exact ⟨st, hst, by simp⟩
    simp [hany]

theorem mem_assignRanks (rec : ProductRecommendation) :
    ∀ (n : Nat) (l : List ProductRecommendation), rec ∈ assignRanks n l →
      ∃ r ∈ l, ∃ k, rec = { r with rank := k } := by
  intro n l
  induction l generalizing n with
  | nil => intro h; simp [assignRanks] at h
  | cons x xs ih =>
    intro h
    simp only [assignRanks, List.mem_cons] at h
    rcases h with h | h
    · exact ⟨x, List.mem_cons_self x xs, n, h⟩
    · obtain ⟨r, hr, k, heq⟩ := ih (n + 1) h
      exact ⟨r, List.mem_cons_of_mem x hr, k, heq⟩

theorem mem_recommend_shape (products : List Product) (profile : Profile)
    (rec : ProductRecommendation) (h : rec ∈ recommend products profile) :
    ∃ product ∈ products, product.active = true ∧
      ∃ k, rec = { recommendOne profile product with rank := k } := by
  unfold recommend at h
  obtain ⟨r, hr, k, heq⟩ := mem_assignRanks rec 1 _ h
  rw [mem_isort] at hr
  obtain ⟨product, hp, rfl⟩ := List.mem_map.mp hr
  obtain ⟨hpp, hact⟩ := List.mem_filter.mp hp
  exact ⟨product, hpp, by simpa using hact, k, heq⟩

/-- C3: every recommendation entry whose (active) product has an exclusion
tag present in the profile's tags is HIDDEN, has ranking score exactly 0
(the weight computation is short-circuited, whatever `weight_by_score`
says), an empty score breakdown, and a single why line naming the first
matching exclusion tag in the order of the product's exclusions list. -/
theorem c3_exclusion_hidden (products : List Product) (profile : Profile)
    (rec : ProductRecommendation) (hmem : rec ∈ recommend products profile)
    (hexcl : ∃ t ∈ rec.product.exclusions.getD [], t ∈ profile.tags) :
    rec.decision = Decision.HIDDEN ∧ rec.score = 0 ∧ rec.scoreBreakdown = [] ∧
    rec.why = ["Excluded: customer has \"" ++
      optString ((rec.product.exclusions.getD []).find?
        (fun tag => decide (tag ∈ profile.tags))) ++ "\" tag"] := by
  obtain ⟨product, hp, hact, k, heq⟩ := mem_recommend_shape products profile rec hmem
  subst heq
  have hprod : ({ recommendOne profile product with rank := k }).product = product :=
    recommendOne_product profile product
  rw [hprod] at hexcl ⊢
  have hR := recommendOne_excluded profile product hexcl
  refine ⟨?_, ?_, ?_, ?_⟩
  · show (recommendOne profile product).decision = Decision.HIDDEN
    rw [hR]
  · show (recommendOne profile product).score = 0
    rw [hR]
    exact jsRound2_zero
  · show (recommendOne profile product).scoreBreakdown = []
    rw [hR]
  · show (recommendOne profile product).why = _
    rw [hR]

/-- C4: every recommendation entry whose (active) product has no matching
exclusion tag is HIDDEN exactly when some required-score threshold fails
against `profile.scores` (absent scores default to 0); its score breakdown
records the observed value of every required score, pass or fail; and its
ranking score is the weighted sum over `weight_by_score` rounded to two
decimals, computed even when the decision is HIDDEN. -/
theorem c4_thresholds_and_score (products : List Product) (profile : Profile)
    (rec : ProductRecommendation) (hmem : rec ∈ recommend products profile)
    (hexcl : ∀ t ∈ rec.product.exclusions.getD [], t ∉ profile.tags) :
    (rec.decision = Decision.HIDDEN ↔
      ∃ st ∈ rec.product.required_scores.getD [],
        (lookupA profile.scores st.1).getD 0 < st.2) ∧
    (∀ st ∈ rec.product.required_scores.getD [],
      lookupA rec.scoreBreakdown st.1 = some ((lookupA profile.scores st.1).getD 0)) ∧
    rec.score = jsRound2 (rankScoreOf profile (rec.product.weight_by_score.getD [])) := by
  obtain ⟨product, hp, hact, k, heq⟩ := mem_recommend_shape products profile rec hmem
  subst heq
  have hprod : ({ recommendOne profile product with rank := k }).product = product :=
    recommendOne_product profile product
  rw [hprod] at hexcl ⊢
  obtain ⟨hdec, hbkd, hscore⟩ := recommendOne_not_excluded_fields profile product hexcl
  exact ⟨hdec, hbkd, hscore⟩

unseal Rat.mul Rat.add Rat.inv in
theorem recommend_excl_eval : recommend [exclProduct] exclProfile = [exclRec] := by rfl

/-- Witness for C3 at a concrete catalog: the excluded product carries
nonzero weights, yet its entry is HIDDEN with ranking score 0, an empty
breakdown, and a why line naming the exclusion tag. -/
theorem c3_exclusion_hidden_witness :
    (exclRec ∈ recommend [exclProduct] exclProfile ∧
      ∃ t ∈ exclRec.product.exclusions.getD [], t ∈ exclProfile.tags) ∧
    (exclRec.decision = Decision.HIDDEN ∧ exclRec.score = 0 ∧
      exclRec.scoreBreakdown = [] ∧
      exclRec.why = ["Excluded: customer has \"" ++
        optString ((exclRec.product.exclusions.getD []).find?
          (fun tag => decide (tag ∈ exclProfile.tags))) ++ "\" tag"]) := by
  have hmem : exclRec ∈ recommend [exclProduct] exclProfile := by
    rw [recommend_excl_eval]
    exact List.mem_singleton.mpr rfl
  have hexcl : ∃ t ∈ exclRec.product.exclusions.getD [], t ∈ exclProfile.tags :=
    ⟨"has-home-loan", by decide, by decide⟩
  exact ⟨⟨hmem, hexcl⟩, c3_exclusion_hidden [exclProduct] exclProfile exclRec hmem hexcl⟩

unseal Rat.mul Rat.add Rat.inv in
theorem recommend_thr_eval : recommend [thrProduct] thrProfile = [thrRec] := by rfl

/-- Witness for C4 at a concrete catalog: one threshold passes and one
fails, so the entry is HIDDEN while the breakdown holds both observed
values and the ranking score is still computed. -/
theorem c4_thresholds_and_score_witness :
    (thrRec ∈ recommend [thrProduct] thrProfile ∧
      ∀ t ∈ thrRec.product.exclusions.getD [], t ∉ thrProfile.tags) ∧
    ((thrRec.decision = Decision.HIDDEN ↔
        ∃ st ∈ thrRec.product.required_scores.getD [],
          (lookupA thrProfile.scores st.1).getD 0 < st.2) ∧
      (∀ st ∈ thrRec.product.required_scores.getD [],
        lookupA thrRec.scoreBreakdown st.1
          = some ((lookupA thrProfile.scores st.1).getD 0)) ∧
      thrRec.score = jsRound2 (rankScoreOf thrProfile
        (thrRec.product.weight_by_score.getD []))) := by
  have hmem : thrRec ∈ recommend [thrProduct] thrProfile := by
    rw [recommend_thr_eval]
    exact List.mem_singleton.mpr rfl
  have hexcl : ∀ t ∈ thrRec.product.exclusions.getD [], t ∉ thrProfile.tags := by
    intro t ht
    simp [thrRec, thrProduct] at ht
  exact ⟨⟨hmem, hexcl⟩, c4_thresholds_and_score [thrProduct] thrProfile thrRec hmem hexcl⟩

theorem unrank_eq_self (r : ProductRecommendation) (h : r.rank = 0) : unrank r = r := by
  obtain ⟨p, d, rk, s, w, b⟩ := r
  simp only at h
  subst h
  rfl

theorem assignRanks_map_unrank :
    ∀ (n : Nat) (l : List ProductRecommendation),
      (assignRanks n l).map unrank = l.map unrank := by
  intro n l
  induction l generalizing n with
  | nil => rfl
  | cons x xs ih =>
    simp only [assignRanks, List.map_cons]
    rw [ih]
    rfl

theorem assignRanks_map_rank :
    ∀ (n : Nat) (l : List ProductRecommendation),
      (assignRanks n l).map (fun r => r.rank) = List.range' n l.length := by
  intro n l
  induction l generalizing n with
  | nil => rfl
  | cons x xs ih =>
    simp only [assignRanks, List.map_cons, List.length_cons]
    rw [ih]
    rfl

theorem pairwise_assignRanks {R : ProductRecommendation → ProductRecommendation → Prop}
    (hR : ∀ (a b : ProductRecommendation) (k m : Nat),
      R a b → R { a with rank := k } { b with rank := m }) :
    ∀ (n : Nat) (l : List ProductRecommendation), l.Pairwise R →
      (assignRanks n l).Pairwise R := by
  intro n l
  induction l generalizing n with
  | nil => intro _; exact List.Pairwise.nil
  | cons x xs ih =>
    intro hl
    rcases List.pairwise_cons.mp hl with ⟨hx, hxs⟩
    refine List.pairwise_cons.mpr ⟨?_, ih (n + 1) hxs⟩
    intro b hb
    obtain ⟨r, hr, k, heq⟩ := mem_assignRanks b (n + 1) xs hb
    subst heq
    exact hR x r n k (hx r hr)

/-- C5: the recommendation list places every SHOWN entry before every
HIDDEN entry; within a partition (equal decisions) scores are descending;
entries tied on (decision, score) keep the catalog's input relative order;
and the rank fields are exactly the contiguous sequence 1..N in output
order, N being the number of active products. -/
theorem c5_ordering_and_ranks (products : List Product) (profile : Profile) :
    (recommend products profile).Pairwise (fun a b =>
      a.decision = Decision.HIDDEN → b.decision = Decision.HIDDEN) ∧
    (recommend products profile).Pairwise (fun a b =>
      a.decision = b.decision → b.score ≤ a.score) ∧
    (∀ (d : Decision) (s : Rat),
      ((recommend products profile).map unrank).filter
          (fun r => decide (r.decision = d) && decide (r.score = s))
        = ((products.filter (fun p => p.active)).map (recommendOne profile)).filter
            (fun r => decide (r.decision = d) && decide (r.score = s))) ∧
    (recommend products profile).map (fun r => r.rank)
      = List.range' 1 ((products.filter (fun p => p.active)).length) := by
  have hpair := pairwise_isort recLe_total recLe_trans
      ((products.filter (fun p => p.active)).map (recommendOne profile))
  refine ⟨?_, ?_, ?_, ?_⟩
  · show (assignRanks 1 (isort recLe _)).Pairwise _
    refine pairwise_assignRanks (fun a b k m h => h) 1 _ (hpair.imp ?_)
    intro a b hab
    rw [recLe_iff] at hab
    intro hH
    rcases hab with ⟨hne, hS⟩ | ⟨heq, _⟩
    · rw [hH] at hS
      exact absurd hS (by decide)
    · exact heq ▸ hH
  · show (assignRanks 1 (isort recLe _)).Pairwise _
    refine pairwise_assignRanks (fun a b k m h => h) 1 _ (hpair.imp ?_)
    intro a b hab
    rw [recLe_iff] at hab
    intro hdec
    rcases hab with ⟨hne, _⟩ | ⟨_, hsc⟩
    · exact absurd hdec hne
    · exact hsc
  · intro d s
    show ((assignRanks 1 (isort recLe _)).map unrank).filter _ = _
    rw [assignRanks_map_unrank]
    have hrank0 : ∀ r ∈ isort recLe
        ((products.filter (fun p => p.active)).map (recommendOne profile)), r.rank = 0 := by
      intro r hr
      rw [mem_isort] at hr
      obtain ⟨product, _, rfl⟩ := List.mem_map.mp hr
      exact recommendOne_rank profile product
    rw [List.map_congr_left (fun r hr => unrank_eq_self r (hrank0 r hr)), List.map_id']
    refine isort_filter_ties ?_ _
    intro a b ha hb
    simp only [Bool.and_eq_true, decide_eq_true_eq] at ha hb
    rw [recLe_iff]
    exact Or.inr ⟨ha.1.trans hb.1.symm, (hb.2.trans ha.2.symm).le⟩
  · show (assignRanks 1 (isort recLe _)).map _ = _
    rw [assignRanks_map_rank, (isort_perm _ _).length_eq, List.length_map]

/-- C10 counterexample: a dotted path whose next segment is a decimal
index, applied to a list value, DOES select the element of that list:
`getByPath({a: [10, 20]}, "a.0")` is `10`, not undefined (JS arrays are
`typeof 'object'`, and their element properties are the canonical index
strings), contradicting the claim that no element selection can occur. -/
theorem c10_counterexample :
    getByPath (JValue.obj [("a", JValue.arr [JValue.num 10, JValue.num 20])]) "a.0"
      = some (JValue.num 10) := by rfl

/-- C10 (amended): resolution walks the context field by field and
returns undefined — never an error — as soon as the current value is
null/absent or a primitive (string, boolean or number); however arrays
count as object-like values, so a path segment that is the canonical
decimal string of an in-range index, applied to an array, selects the
element at that index and the walk continues from it. -/
theorem c10_getByPath_walk (part key : String) (rest : List String)
    (s : String) (b : Bool) (q : Rat) (elems : List JValue) (i : Nat)
    (hlen : key ≠ "length") (hparse : strToNat? key = some i)
    (hcanon : key = Nat.repr i) :
    getByPathAux none (part :: rest) = none ∧
    getByPathAux (some JValue.null) (part :: rest) = none ∧
    getByPathAux (some (JValue.str s)) (part :: rest) = none ∧
    getByPathAux (some (JValue.bool b)) (part :: rest) = none ∧
    getByPathAux (some (JValue.num q)) (part :: rest) = none ∧
    getByPathAux (some (JValue.arr elems)) (key :: rest)
      = getByPathAux (elems.get? i) rest := by
  refine ⟨rfl, rfl, rfl, rfl, rfl, ?_⟩
  have h1 : getField (JValue.arr elems) key = elems.get? i := by
    show (if key = "length" then some (JValue.num (elems.length : Rat))
      else match strToNat? key with
        | some j => if key = Nat.repr j then elems.get? j else none
        | none => none) = elems.get? i
    rw [if_neg hlen, hparse]
    exact if_pos hcanon
  rw [show getByPathAux (some (JValue.arr elems)) (key :: rest)
      = getByPathAux (getField (JValue.arr elems) key) rest from rfl, h1]

/-- Witness for C10's amended statement: segment `"0"` applied to the
array `[10, 20]` continues the walk from element `10`. -/
theorem c10_getByPath_walk_witness :
    ("0" ≠ "length" ∧ strToNat? "0" = some 0 ∧ "0" = Nat.repr 0) ∧
    (getByPathAux none ["x"] = none ∧
     getByPathAux (some JValue.null) ["x"] = none ∧
     getByPathAux (some (JValue.str "s")) ["x"] = none ∧
     getByPathAux (some (JValue.bool true)) ["x"] = none ∧
     getByPathAux (some (JValue.num 7)) ["x"] = none ∧
     getByPathAux (some (JValue.arr [JValue.num 10, JValue.num 20])) ["0"]
       = getByPathAux ([JValue.num 10, JValue.num 20].get? 0) []) :=
  ⟨⟨by decide, by rfl, by decide⟩,
   c10_getByPath_walk "x" "0" [] "s" true 7 [JValue.num 10, JValue.num 20] 0
     (by decide) (by rfl) (by decide)⟩

/-- Witness for C9: a scoreDelta effect lacking its delta is a no-op on a
concrete profile. -/
theorem c9_malformed_effect_noop_witness :
    ((e9.type = "scoreDelta" ∧ (e9.score = none ∨ e9.delta = none)) ∨
      (e9.type = "addTag" ∧ e9.tag = none) ∨
      (e9.type = "removeTag" ∧ e9.tag = none) ∨
      (e9.type ≠ "scoreDelta" ∧ e9.type ≠ "addTag" ∧ e9.type ≠ "removeTag")) ∧
    applyEffect profileA e9 = ("", profileA) :=
  ⟨Or.inl ⟨rfl, Or.inr rfl⟩,
   c9_malformed_effect_noop profileA e9 (Or.inl ⟨rfl, Or.inr rfl⟩)⟩
